import Mathlib

/-!
Shallow embedding of the AER (azimuth-elevation-range) component of the
`nav-types` navigation library (`src/aer.rs`), together with theorems
checking its specification.  Scalars are modelled as real numbers;
fallible constructors (which panic or return `None` in the source) are
modelled as `Option`-returning functions whose guard is exactly the
source's validation condition.
-/

noncomputable section

namespace NavTypes

/-- Modelled from the spec: the `ENU` local tangent-plane Cartesian offset
type (east, north, up, in meters).  Its defining file is not among the
provided sources (only `aer.rs` is); the fields follow the data model of
the specification (§3, §4.3). -/
@[ext]
structure ENU where
  east : ℝ
  north : ℝ
  up : ℝ

/-- Modelled from the spec: §4.3, `norm` of an ENU offset is the Euclidean
magnitude of its three components. -/
def ENU.norm (v : ENU) : ℝ :=
  Real.sqrt (v.east ^ 2 + v.north ^ 2 + v.up ^ 2)

/-- The `AER` struct of `aer.rs`: azimuth and elevation are stored in
radians, range in meters. -/
structure AER where
  azimuth : ℝ
  elevation : ℝ
  range : ℝ

/-- The four-quadrant arctangent `y.atan2(x)` (Rust `f64::atan2`) on real
numbers: the angle of the point `(x, y)`, lying in `(-pi, pi]`, with
`atan2 0 0 = 0`, following the C/IEEE case analysis the Rust function
implements (restricted to real numbers, where no negative zero exists). -/
def atan2 (y x : ℝ) : ℝ :=
  if 0 < x then Real.arctan (y / x)
  else if x < 0 then
    (if 0 ≤ y then Real.arctan (y / x) + Real.pi else Real.arctan (y / x) - Real.pi)
  else
    (if 0 < y then Real.pi / 2 else if y < 0 then -(Real.pi / 2) else 0)

/-- `AER::from_degrees_and_meters` (aer.rs:46-61): asserts azimuth in
`[0, 360]` and `|elevation| <= 90`, converts both angles from degrees to
radians (`to_radians` is multiplication by `pi / 180`), passes range
through.  A panic (failed assert) is modelled as `none`. -/
def AER.from_degrees_and_meters (azimuth elevation range : ℝ) : Option AER :=
  if 0 ≤ azimuth ∧ azimuth ≤ 360 ∧ |elevation| ≤ 90 then
    some { azimuth := azimuth * (Real.pi / 180)
           elevation := elevation * (Real.pi / 180)
           range := range }
  else none

/-- `AER::try_from_degrees_and_meters` (aer.rs:71-84): same condition and
construction as `from_degrees_and_meters`, returning `None` instead of
panicking. -/
def AER.try_from_degrees_and_meters (azimuth elevation range : ℝ) : Option AER :=
  if 0 ≤ azimuth ∧ azimuth ≤ 360 ∧ |elevation| ≤ 90 then
    some { azimuth := azimuth * (Real.pi / 180)
           elevation := elevation * (Real.pi / 180)
           range := range }
  else none

/-- `AER::from_radians_and_meters` (aer.rs:95-110): asserts azimuth in
`[0, TAU]` and `|elevation| <= FRAC_PI_2`, stores all three fields
unchanged.  A panic is modelled as `none`. -/
def AER.from_radians_and_meters (azimuth elevation range : ℝ) : Option AER :=
  if 0 ≤ azimuth ∧ azimuth ≤ 2 * Real.pi ∧ |elevation| ≤ Real.pi / 2 then
    some { azimuth := azimuth, elevation := elevation, range := range }
  else none

/-- `AER::try_from_radians_and_meters` (aer.rs:119-132): same condition
and construction as `from_radians_and_meters`, returning `None` instead
of panicking. -/
def AER.try_from_radians_and_meters (azimuth elevation range : ℝ) : Option AER :=
  if 0 ≤ azimuth ∧ azimuth ≤ 2 * Real.pi ∧ |elevation| ≤ Real.pi / 2 then
    some { azimuth := azimuth, elevation := elevation, range := range }
  else none

/-- `AER::azimuth_degrees` (aer.rs:135-137): `to_degrees` is
multiplication by `180 / pi`. -/
def AER.azimuth_degrees (a : AER) : ℝ := a.azimuth * (180 / Real.pi)

/-- `AER::elevation_degrees` (aer.rs:140-142). -/
def AER.elevation_degrees (a : AER) : ℝ := a.elevation * (180 / Real.pi)

/-- `AER::azimuth_radians` (aer.rs:145-147). -/
def AER.azimuth_radians (a : AER) : ℝ := a.azimuth

/-- `AER::elevation_radians` (aer.rs:150-152). -/
def AER.elevation_radians (a : AER) : ℝ := a.elevation

/-- `AER::range` (aer.rs:154-157): as written in the source, the accessor
applies `to_degrees` (multiplication by `180 / pi`) to the stored range
instead of returning it unchanged.  Named `range_method` here because
`AER.range` is taken by the field projection. -/
def AER.range_method (a : AER) : ℝ := a.range * (180 / Real.pi)

/-- `impl From<ENU<N>> for AER<N>` (aer.rs:160-180): azimuth is
`east.atan2(north)`, with `TAU` added if negative; elevation is
`up.atan2(horizontal_distance)`; range is the ENU norm. -/
def AER.fromENU (enu : ENU) : AER :=
  let horizontal_distance := Real.sqrt (enu.east ^ 2 + enu.north ^ 2)
  let azimuth0 := atan2 enu.east enu.north
  { azimuth := if azimuth0 < 0 then azimuth0 + 2 * Real.pi else azimuth0
    elevation := atan2 enu.up horizontal_distance
    range := enu.norm }

/-- `impl From<AER<N>> for ENU<N>` (aer.rs:182-190). -/
def ENU.fromAER (aer : AER) : ENU :=
  { east := Real.sin aer.azimuth * Real.cos aer.elevation * aer.range
    north := Real.cos aer.azimuth * Real.cos aer.elevation * aer.range
    up := Real.sin aer.elevation * aer.range }

/-! ### Helper lemmas about `atan2` -/

theorem sq_add_sq_pos {x y : ℝ} (h : ¬(x = 0 ∧ y = 0)) : 0 < x ^ 2 + y ^ 2 := by
  rcases not_and_or.mp h with h1 | h1
  · have h2 : 0 < x ^ 2 := lt_of_le_of_ne (sq_nonneg x) (Ne.symm (pow_ne_zero 2 h1))
    nlinarith [sq_nonneg y]
  · have h2 : 0 < y ^ 2 := lt_of_le_of_ne (sq_nonneg y) (Ne.symm (pow_ne_zero 2 h1))
    nlinarith [sq_nonneg x]

theorem sqrt_one_add_div_sq (y x : ℝ) (hx : x ≠ 0) :
    Real.sqrt (1 + (y / x) ^ 2) = Real.sqrt (x ^ 2 + y ^ 2) / |x| := by
  have h1 : (1 : ℝ) + (y / x) ^ 2 = (x ^ 2 + y ^ 2) / x ^ 2 := by
    field_simp
  rw [h1, Real.sqrt_div (by positivity) (x ^ 2), Real.sqrt_sq_eq_abs]

theorem sin_arctan_div (y x : ℝ) (hx : x ≠ 0) :
    Real.sin (Real.arctan (y / x)) = y * |x| / (x * Real.sqrt (x ^ 2 + y ^ 2)) := by
  have hs : 0 < Real.sqrt (x ^ 2 + y ^ 2) :=
    Real.sqrt_pos.mpr (sq_add_sq_pos (fun hc => hx hc.1))
  have habs : |x| ≠ 0 := abs_ne_zero.mpr hx
  rw [Real.sin_arctan, sqrt_one_add_div_sq y x hx]
  field_simp

theorem cos_arctan_div (y x : ℝ) (hx : x ≠ 0) :
    Real.cos (Real.arctan (y / x)) = |x| / Real.sqrt (x ^ 2 + y ^ 2) := by
  rw [Real.cos_arctan, sqrt_one_add_div_sq y x hx, one_div_div]

theorem sin_atan2 (y x : ℝ) : Real.sin (atan2 y x) = y / Real.sqrt (x ^ 2 + y ^ 2) := by
  unfold atan2
  rcases lt_trichotomy x 0 with hx | hx | hx
  · have hs : 0 < Real.sqrt (x ^ 2 + y ^ 2) :=
      Real.sqrt_pos.mpr (sq_add_sq_pos (fun hc => hx.ne hc.1))
    rw [if_neg (asymm hx), if_pos hx]
    have hsin : Real.sin (Real.arctan (y / x)) = -(y / Real.sqrt (x ^ 2 + y ^ 2)) := by
      rw [sin_arctan_div y x hx.ne, abs_of_neg hx, mul_neg, neg_div, mul_comm y x,
        mul_div_mul_left y (Real.sqrt (x ^ 2 + y ^ 2)) hx.ne]
    by_cases hy : 0 ≤ y
    · rw [if_pos hy, Real.sin_add, Real.sin_pi, Real.cos_pi, hsin]
      ring
    · rw [if_neg hy, Real.sin_sub, Real.sin_pi, Real.cos_pi, hsin]
      ring
  · subst hx
    rw [if_neg (lt_irrefl 0), if_neg (lt_irrefl 0)]
    rcases lt_trichotomy y 0 with hy | hy | hy
    · rw [if_neg (asymm hy), if_pos hy, Real.sin_neg, Real.sin_pi_div_two]
      rw [show (0 : ℝ) ^ 2 + y ^ 2 = y ^ 2 by ring, Real.sqrt_sq_eq_abs, abs_of_neg hy]
      rw [div_neg, div_self hy.ne]
    · subst hy
      simp
    · rw [if_pos hy, Real.sin_pi_div_two]
      rw [show (0 : ℝ) ^ 2 + y ^ 2 = y ^ 2 by ring, Real.sqrt_sq_eq_abs, abs_of_pos hy]
      rw [div_self hy.ne']
  · rw [if_pos hx, sin_arctan_div y x hx.ne', abs_of_pos hx, mul_comm y x,
      mul_div_mul_left y (Real.sqrt (x ^ 2 + y ^ 2)) hx.ne']

theorem cos_atan2 (y x : ℝ) (h : ¬(x = 0 ∧ y = 0)) :
    Real.cos (atan2 y x) = x / Real.sqrt (x ^ 2 + y ^ 2) := by
  unfold atan2
  rcases lt_trichotomy x 0 with hx | hx | hx
  · have hs : 0 < Real.sqrt (x ^ 2 + y ^ 2) :=
      Real.sqrt_pos.mpr (sq_add_sq_pos h)
    rw [if_neg (asymm hx), if_pos hx]
    by_cases hy : 0 ≤ y
    · rw [if_pos hy, Real.cos_add, Real.sin_pi, Real.cos_pi,
        cos_arctan_div y x hx.ne, abs_of_neg hx]
      field_simp
    · rw [if_neg hy, Real.cos_sub, Real.sin_pi, Real.cos_pi,
        cos_arctan_div y x hx.ne, abs_of_neg hx]
      field_simp
  · subst hx
    rw [if_neg (lt_irrefl 0), if_neg (lt_irrefl 0)]
    rcases lt_trichotomy y 0 with hy | hy | hy
    · rw [if_neg (asymm hy), if_pos hy, Real.cos_neg, Real.cos_pi_div_two, zero_div]
    · exact absurd ⟨rfl, hy⟩ h
    · rw [if_pos hy, Real.cos_pi_div_two, zero_div]
  · rw [if_pos hx, cos_arctan_div y x hx.ne', abs_of_pos hx]

theorem atan2_bounds (y x : ℝ) : -Real.pi < atan2 y x ∧ atan2 y x ≤ Real.pi := by
  have hpi : 0 < Real.pi := Real.pi_pos
  unfold atan2
  rcases lt_trichotomy x 0 with hx | hx | hx
  · rw [if_neg (asymm hx), if_pos hx]
    by_cases hy : 0 ≤ y
    · rw [if_pos hy]
      have h1 : Real.arctan (y / x) ≤ 0 := by
        have hq : y / x ≤ 0 := div_nonpos_iff.mpr (Or.inl ⟨hy, hx.le⟩)
        calc Real.arctan (y / x) ≤ Real.arctan 0 := Real.arctan_strictMono.monotone hq
        _ = 0 := Real.arctan_zero
      have h2 := Real.neg_pi_div_two_lt_arctan (y / x)
      constructor <;> linarith
    · rw [if_neg hy]
      have h1 : 0 < Real.arctan (y / x) := by
        have hq : 0 < y / x := div_pos_iff.mpr (Or.inr ⟨not_le.mp hy, hx⟩)
        calc (0 : ℝ) = Real.arctan 0 := Real.arctan_zero.symm
        _ < Real.arctan (y / x) := Real.arctan_strictMono hq
      have h2 := Real.arctan_lt_pi_div_two (y / x)
      constructor <;> linarith
  · subst hx
    rw [if_neg (lt_irrefl 0), if_neg (lt_irrefl 0)]
    rcases lt_trichotomy y 0 with hy | hy | hy
    · rw [if_neg (asymm hy), if_pos hy]
      constructor <;> linarith
    · subst hy
      rw [if_neg (lt_irrefl 0), if_neg (lt_irrefl 0)]
      constructor <;> linarith
    · rw [if_pos hy]
      constructor <;> linarith
  · rw [if_pos hx]
    have h1 := Real.neg_pi_div_two_lt_arctan (y / x)
    have h2 := Real.arctan_lt_pi_div_two (y / x)
    constructor <;> linarith

theorem atan2_zero_zero : atan2 0 0 = 0 := by
  unfold atan2
  norm_num

theorem atan2_pos_zero (y : ℝ) (hy : 0 < y) : atan2 y 0 = Real.pi / 2 := by
  unfold atan2
  rw [if_neg (lt_irrefl 0), if_neg (lt_irrefl 0), if_pos hy]

theorem atan2_neg_zero (y : ℝ) (hy : y < 0) : atan2 y 0 = -(Real.pi / 2) := by
  unfold atan2
  rw [if_neg (lt_irrefl 0), if_neg (lt_irrefl 0), if_neg (asymm hy), if_pos hy]

theorem atan2_of_pos (y x : ℝ) (hx : 0 < x) : atan2 y x = Real.arctan (y / x) := by
  unfold atan2
  rw [if_pos hx]

theorem normalized_atan2_mem (y x : ℝ) :
    (0 ≤ if atan2 y x < 0 then atan2 y x + 2 * Real.pi else atan2 y x) ∧
    ((if atan2 y x < 0 then atan2 y x + 2 * Real.pi else atan2 y x) < 2 * Real.pi) := by
  obtain ⟨h1, h2⟩ := atan2_bounds y x
  have hpi := Real.pi_pos
  by_cases h : atan2 y x < 0
  · simp only [if_pos h]
    constructor <;> linarith
  · simp only [if_neg h]
    push_neg at h
    constructor <;> linarith

theorem atan2_nonneg_x_bounds (y x : ℝ) (hx : 0 ≤ x) :
    -(Real.pi / 2) ≤ atan2 y x ∧ atan2 y x ≤ Real.pi / 2 := by
  have hpi := Real.pi_pos
  rcases lt_or_eq_of_le hx with h | h
  · rw [atan2_of_pos y x h]
    exact ⟨(Real.neg_pi_div_two_lt_arctan _).le, (Real.arctan_lt_pi_div_two _).le⟩
  · rw [← h]
    unfold atan2
    rw [if_neg (lt_irrefl 0), if_neg (lt_irrefl 0)]
    split_ifs <;> constructor <;> linarith

/-! ### Claim theorems -/

/-- Claim C1 (code bug): the `range` accessor does NOT return the stored
range unchanged: as implemented (aer.rs:154-157) it applies `to_degrees`,
so an AER value storing range `pi` reports range `180`, which differs
from `pi`. -/
theorem C1_range_accessor_applies_to_degrees :
    AER.range_method { azimuth := 0, elevation := 0, range := Real.pi } = 180 ∧
    Real.pi ≠ 180 := by
  constructor
  · simp only [AER.range_method]
    rw [mul_comm, div_mul_cancel₀ _ Real.pi_ne_zero]
  · intro h
    have h1 : Real.pi < 3.15 := Real.pi_lt_d2
    rw [h] at h1
    norm_num at h1

/-- Claim C4: converting an ENU offset to AER yields azimuth
`atan2 east north`, with a full turn added when that is negative, so the
azimuth lies in `[0, 2*pi)`; elevation `atan2 up (sqrt (east^2+north^2))`;
and range the Euclidean norm of the ENU vector. -/
theorem C4_fromENU_formula (e n u : ℝ) :
    (AER.fromENU ⟨e, n, u⟩).azimuth =
      (if atan2 e n < 0 then atan2 e n + 2 * Real.pi else atan2 e n) ∧
    0 ≤ (AER.fromENU ⟨e, n, u⟩).azimuth ∧
    (AER.fromENU ⟨e, n, u⟩).azimuth < 2 * Real.pi ∧
    (AER.fromENU ⟨e, n, u⟩).elevation = atan2 u (Real.sqrt (e ^ 2 + n ^ 2)) ∧
    (AER.fromENU ⟨e, n, u⟩).range = ENU.norm ⟨e, n, u⟩ := by
  obtain ⟨h1, h2⟩ := normalized_atan2_mem e n
  exact ⟨rfl, h1, h2, rfl, rfl⟩

/-- Claim C5: converting an AER value to ENU yields
east `r * sin az * cos el`, north `r * cos az * cos el`,
up `r * sin el`. -/
theorem C5_toENU_formula (a : AER) :
    (ENU.fromAER a).east = a.range * Real.sin a.azimuth * Real.cos a.elevation ∧
    (ENU.fromAER a).north = a.range * Real.cos a.azimuth * Real.cos a.elevation ∧
    (ENU.fromAER a).up = a.range * Real.sin a.elevation := by
  refine ⟨?_, ?_, ?_⟩ <;> simp only [ENU.fromAER] <;> ring

/-- Claim C6: the degree constructors fail (panic, resp. `None`) exactly
outside azimuth `[0, 360]` and elevation `[-90, 90]`; boundary values are
accepted; on success both store the degree inputs converted to radians
and pass the range through unchanged. -/
theorem C6_degree_constructor_validation (az el r : ℝ) :
    ((az < 0 ∨ 360 < az ∨ el < -90 ∨ 90 < el) →
      AER.from_degrees_and_meters az el r = none ∧
      AER.try_from_degrees_and_meters az el r = none) ∧
    ((0 ≤ az ∧ az ≤ 360 ∧ -90 ≤ el ∧ el ≤ 90) →
      AER.from_degrees_and_meters az el r =
        some { azimuth := az * (Real.pi / 180), elevation := el * (Real.pi / 180),
               range := r } ∧
      AER.try_from_degrees_and_meters az el r =
        some { azimuth := az * (Real.pi / 180), elevation := el * (Real.pi / 180),
               range := r }) := by
  constructor
  · intro h
    have hcond : ¬(0 ≤ az ∧ az ≤ 360 ∧ |el| ≤ 90) := by
      rintro ⟨h1, h2, h3⟩
      rw [abs_le] at h3
      rcases h with h | h | h | h <;> linarith [h3.1, h3.2]
    exact ⟨by simp only [AER.from_degrees_and_meters, if_neg hcond],
      by simp only [AER.try_from_degrees_and_meters, if_neg hcond]⟩
  · rintro ⟨h1, h2, h3, h4⟩
    have hcond : 0 ≤ az ∧ az ≤ 360 ∧ |el| ≤ 90 := ⟨h1, h2, abs_le.mpr ⟨h3, h4⟩⟩
    exact ⟨by simp only [AER.from_degrees_and_meters, if_pos hcond],
      by simp only [AER.try_from_degrees_and_meters, if_pos hcond]⟩

/-- Witness for C6 at azimuth 400 (rejected) and at the boundary input
azimuth 360, elevation -90 (accepted, converted to radians). -/
theorem C6_witness :
    AER.from_degrees_and_meters 400 10 5 = none ∧
    AER.try_from_degrees_and_meters 400 10 5 = none ∧
    AER.from_degrees_and_meters 360 (-90) 2 =
      some { azimuth := 360 * (Real.pi / 180), elevation := -90 * (Real.pi / 180),
             range := 2 } ∧
    AER.try_from_degrees_and_meters 360 (-90) 2 =
      some { azimuth := 360 * (Real.pi / 180), elevation := -90 * (Real.pi / 180),
             range := 2 } := by
  have h1 := (C6_degree_constructor_validation 400 10 5).1 (by norm_num)
  have h2 := (C6_degree_constructor_validation 360 (-90) 2).2 (by norm_num)
  exact ⟨h1.1, h1.2, h2.1, h2.2⟩

/-- Claim C7: the radian constructors fail (panic, resp. `None`) exactly
when azimuth is outside `[0, 2*pi]` or elevation outside
`[-pi/2, pi/2]`; on success both store azimuth, elevation and range
unchanged. -/
theorem C7_radian_constructor_validation (az el r : ℝ) :
    ((AER.from_radians_and_meters az el r = none ∧
      AER.try_from_radians_and_meters az el r = none) ↔
      (az < 0 ∨ 2 * Real.pi < az ∨ el < -(Real.pi / 2) ∨ Real.pi / 2 < el)) ∧
    ((0 ≤ az ∧ az ≤ 2 * Real.pi ∧ -(Real.pi / 2) ≤ el ∧ el ≤ Real.pi / 2) →
      AER.from_radians_and_meters az el r =
        some { azimuth := az, elevation := el, range := r } ∧
      AER.try_from_radians_and_meters az el r =
        some { azimuth := az, elevation := el, range := r }) := by
  constructor
  · constructor
    · rintro ⟨hnone, -⟩
      by_contra hout
      push_neg at hout
      obtain ⟨k1, k2, k3, k4⟩ := hout
      have hcond : 0 ≤ az ∧ az ≤ 2 * Real.pi ∧ |el| ≤ Real.pi / 2 :=
        ⟨k1, k2, abs_le.mpr ⟨k3, k4⟩⟩
      rw [AER.from_radians_and_meters, if_pos hcond] at hnone
      exact Option.some_ne_none _ hnone
    · intro h
      have hcond : ¬(0 ≤ az ∧ az ≤ 2 * Real.pi ∧ |el| ≤ Real.pi / 2) := by
        rintro ⟨h1, h2, h3⟩
        rw [abs_le] at h3
        rcases h with h | h | h | h <;> linarith [h3.1, h3.2]
      exact ⟨by simp only [AER.from_radians_and_meters, if_neg hcond],
        by simp only [AER.try_from_radians_and_meters, if_neg hcond]⟩
  · rintro ⟨h1, h2, h3, h4⟩
    have hcond : 0 ≤ az ∧ az ≤ 2 * Real.pi ∧ |el| ≤ Real.pi / 2 :=
      ⟨h1, h2, abs_le.mpr ⟨h3, h4⟩⟩
    exact ⟨by simp only [AER.from_radians_and_meters, if_pos hcond],
      by simp only [AER.try_from_radians_and_meters, if_pos hcond]⟩

/-- Witness for C7 at azimuth 7 (greater than `2*pi`, rejected) and at
azimuth 0, elevation 0, range -3 (accepted, stored unchanged). -/
theorem C7_witness :
    (AER.from_radians_and_meters 7 0 1 = none ∧
      AER.try_from_radians_and_meters 7 0 1 = none) ∧
    AER.from_radians_and_meters 0 0 (-3) =
      some { azimuth := 0, elevation := 0, range := -3 } := by
  have hpi : Real.pi < 3.15 := Real.pi_lt_d2
  have h1 := (C7_radian_constructor_validation 7 0 1).1.mpr
    (Or.inr (Or.inl (by linarith)))
  have h2 := (C7_radian_constructor_validation 0 0 (-3)).2
    ⟨le_refl 0, by positivity, by linarith [Real.pi_pos], by positivity⟩
  exact ⟨h1, h2.1⟩

/-- Claim C10: converting the zero ENU offset to AER yields azimuth 0,
elevation 0 and range 0, and `atan2 0 0 = 0` so the negative-azimuth
normalization branch is not taken. -/
theorem C10_zero_enu :
    AER.fromENU ⟨0, 0, 0⟩ = { azimuth := 0, elevation := 0, range := 0 } ∧
    atan2 0 0 = 0 := by
  refine ⟨?_, atan2_zero_zero⟩
  simp only [AER.fromENU, ENU.norm]
  norm_num [atan2_zero_zero, Real.sqrt_zero]

/-! ### Constructor inversion helpers -/

theorem try_deg_eq_deg :
    AER.try_from_degrees_and_meters = AER.from_degrees_and_meters := rfl

theorem try_rad_eq_rad :
    AER.try_from_radians_and_meters = AER.from_radians_and_meters := rfl

theorem deg_some_inv (az el r : ℝ) (a : AER)
    (h : AER.from_degrees_and_meters az el r = some a) :
    a.azimuth = az * (Real.pi / 180) ∧ a.elevation = el * (Real.pi / 180) ∧
    a.range = r ∧ 0 ≤ az ∧ az ≤ 360 ∧ |el| ≤ 90 := by
  rw [AER.from_degrees_and_meters] at h
  by_cases hc : 0 ≤ az ∧ az ≤ 360 ∧ |el| ≤ 90
  · rw [if_pos hc] at h
    obtain rfl := Option.some.inj h
    exact ⟨rfl, rfl, rfl, hc.1, hc.2.1, hc.2.2⟩
  · rw [if_neg hc] at h
    exact absurd h (Option.noConfusion)

theorem rad_some_inv (az el r : ℝ) (a : AER)
    (h : AER.from_radians_and_meters az el r = some a) :
    a.azimuth = az ∧ a.elevation = el ∧ a.range = r ∧
    0 ≤ az ∧ az ≤ 2 * Real.pi ∧ |el| ≤ Real.pi / 2 := by
  rw [AER.from_radians_and_meters] at h
  by_cases hc : 0 ≤ az ∧ az ≤ 2 * Real.pi ∧ |el| ≤ Real.pi / 2
  · rw [if_pos hc] at h
    obtain rfl := Option.some.inj h
    exact ⟨rfl, rfl, rfl, hc.1, hc.2.1, hc.2.2⟩
  · rw [if_neg hc] at h
    exact absurd h (Option.noConfusion)

theorem deg_stored_bounds (az el r : ℝ) (a : AER)
    (h : AER.from_degrees_and_meters az el r = some a) :
    0 ≤ a.azimuth ∧ a.azimuth ≤ 2 * Real.pi ∧
    -(Real.pi / 2) ≤ a.elevation ∧ a.elevation ≤ Real.pi / 2 ∧ a.range = r := by
  obtain ⟨ha, he, hr, h0, h360, habs⟩ := deg_some_inv az el r a h
  rw [abs_le] at habs
  have hpi := Real.pi_pos
  have hd : (0 : ℝ) ≤ Real.pi / 180 := by positivity
  refine ⟨?_, ?_, ?_, ?_, hr⟩
  · rw [ha]
    exact mul_nonneg h0 hd
  · rw [ha]
    nlinarith
  · rw [he]
    nlinarith [habs.1, mul_nonneg (by linarith [habs.1] : (0 : ℝ) ≤ el + 90) hd]
  · rw [he]
    nlinarith [habs.2, mul_nonneg (by linarith [habs.2] : (0 : ℝ) ≤ 90 - el) hd]

theorem rad_stored_bounds (az el r : ℝ) (a : AER)
    (h : AER.from_radians_and_meters az el r = some a) :
    0 ≤ a.azimuth ∧ a.azimuth ≤ 2 * Real.pi ∧
    -(Real.pi / 2) ≤ a.elevation ∧ a.elevation ≤ Real.pi / 2 ∧ a.range = r := by
  obtain ⟨ha, he, hr, h0, h2pi, habs⟩ := rad_some_inv az el r a h
  rw [abs_le] at habs
  rw [ha, he]
  exact ⟨h0, h2pi, habs.1, habs.2, hr⟩

theorem fromENU_invariant (e n u : ℝ) :
    0 ≤ (AER.fromENU ⟨e, n, u⟩).azimuth ∧
    (AER.fromENU ⟨e, n, u⟩).azimuth < 2 * Real.pi ∧
    -(Real.pi / 2) ≤ (AER.fromENU ⟨e, n, u⟩).elevation ∧
    (AER.fromENU ⟨e, n, u⟩).elevation ≤ Real.pi / 2 ∧
    0 ≤ (AER.fromENU ⟨e, n, u⟩).range := by
  obtain ⟨h1, h2⟩ := normalized_atan2_mem e n
  obtain ⟨h3, h4⟩ :=
    atan2_nonneg_x_bounds u (Real.sqrt (e ^ 2 + n ^ 2)) (Real.sqrt_nonneg _)
  exact ⟨h1, h2, h3, h4, Real.sqrt_nonneg _⟩

/-- Claim C8 counterexample: the invariant claimed for every
constructed AER value fails on the code.  The strict degree constructor
accepts a negative range, producing a value with `range = -1 < 0`, and
accepts azimuth 360 degrees, storing azimuth exactly `2*pi`, which is
not in `[0, 2*pi)`. -/
theorem C8_counterexample :
    AER.from_degrees_and_meters 0 0 (-1) =
      some { azimuth := 0, elevation := 0, range := -1 } ∧
    ((-1 : ℝ) < 0) ∧
    AER.from_degrees_and_meters 360 0 1 =
      some { azimuth := 2 * Real.pi, elevation := 0, range := 1 } ∧
    ¬(2 * Real.pi < 2 * Real.pi) := by
  refine ⟨?_, by norm_num, ?_, lt_irrefl _⟩
  · rw [AER.from_degrees_and_meters, if_pos (by norm_num)]
    norm_num
  · rw [AER.from_degrees_and_meters, if_pos (by norm_num)]
    norm_num
    ring

/-- Claim C8 as amended: every AER value produced by a public
constructor or by conversion from ENU has azimuth in the closed
interval `[0, 2*pi]` and elevation in `[-pi/2, pi/2]`; the conversion
from ENU additionally guarantees azimuth strictly below `2*pi` and a
nonnegative range, while the constructors pass the range through
without validating it. -/
theorem C8_invariant_amended :
    (∀ az el r a, AER.from_degrees_and_meters az el r = some a →
      0 ≤ a.azimuth ∧ a.azimuth ≤ 2 * Real.pi ∧
      -(Real.pi / 2) ≤ a.elevation ∧ a.elevation ≤ Real.pi / 2) ∧
    (∀ az el r a, AER.try_from_degrees_and_meters az el r = some a →
      0 ≤ a.azimuth ∧ a.azimuth ≤ 2 * Real.pi ∧
      -(Real.pi / 2) ≤ a.elevation ∧ a.elevation ≤ Real.pi / 2) ∧
    (∀ az el r a, AER.from_radians_and_meters az el r = some a →
      0 ≤ a.azimuth ∧ a.azimuth ≤ 2 * Real.pi ∧
      -(Real.pi / 2) ≤ a.elevation ∧ a.elevation ≤ Real.pi / 2) ∧
    (∀ az el r a, AER.try_from_radians_and_meters az el r = some a →
      0 ≤ a.azimuth ∧ a.azimuth ≤ 2 * Real.pi ∧
      -(Real.pi / 2) ≤ a.elevation ∧ a.elevation ≤ Real.pi / 2) ∧
    (∀ v : ENU, 0 ≤ (AER.fromENU v).azimuth ∧
      (AER.fromENU v).azimuth < 2 * Real.pi ∧
      -(Real.pi / 2) ≤ (AER.fromENU v).elevation ∧
      (AER.fromENU v).elevation ≤ Real.pi / 2 ∧
      0 ≤ (AER.fromENU v).range) := by
  refine ⟨?_, ?_, ?_, ?_, ?_⟩
  · intro az el r a h
    obtain ⟨b1, b2, b3, b4, -⟩ := deg_stored_bounds az el r a h
    exact ⟨b1, b2, b3, b4⟩
  · intro az el r a h
    rw [try_deg_eq_deg] at h
    obtain ⟨b1, b2, b3, b4, -⟩ := deg_stored_bounds az el r a h
    exact ⟨b1, b2, b3, b4⟩
  · intro az el r a h
    obtain ⟨b1, b2, b3, b4, -⟩ := rad_stored_bounds az el r a h
    exact ⟨b1, b2, b3, b4⟩
  · intro az el r a h
    rw [try_rad_eq_rad] at h
    obtain ⟨b1, b2, b3, b4, -⟩ := rad_stored_bounds az el r a h
    exact ⟨b1, b2, b3, b4⟩
  · intro v
    obtain ⟨e, n, u⟩ := v
    exact fromENU_invariant e n u

/-- Witness for C8 as amended, at the degree constructor input
(90, 45, 7) and at the ENU offset (3, 4, 12). -/
theorem C8_witness :
    0 ≤ (AER.mk (90 * (Real.pi / 180)) (45 * (Real.pi / 180)) 7).azimuth ∧
    0 ≤ (AER.fromENU ⟨3, 4, 12⟩).azimuth := by
  constructor
  · refine (C8_invariant_amended.1 90 45 7 _ ?_).1
    rw [AER.from_degrees_and_meters, if_pos (by norm_num)]
  · exact (C8_invariant_amended.2.2.2.2 ⟨3, 4, 12⟩).1

/-- Claim C9: every AER value produced by one of the four public
constructors has stored azimuth in the closed interval `[0, 2*pi]` and
stored elevation in `[-pi/2, pi/2]`; the same bounds hold for conversion
from ENU; the stored range is the range argument unchanged, and all four
constructors accept a negative range. -/
theorem C9_stored_bounds :
    (∀ az el r a,
      (AER.from_degrees_and_meters az el r = some a ∨
        AER.try_from_degrees_and_meters az el r = some a ∨
        AER.from_radians_and_meters az el r = some a ∨
        AER.try_from_radians_and_meters az el r = some a) →
      0 ≤ a.azimuth ∧ a.azimuth ≤ 2 * Real.pi ∧
      -(Real.pi / 2) ≤ a.elevation ∧ a.elevation ≤ Real.pi / 2) ∧
    (∀ e n u : ℝ, 0 ≤ (AER.fromENU ⟨e, n, u⟩).azimuth ∧
      (AER.fromENU ⟨e, n, u⟩).azimuth ≤ 2 * Real.pi ∧
      -(Real.pi / 2) ≤ (AER.fromENU ⟨e, n, u⟩).elevation ∧
      (AER.fromENU ⟨e, n, u⟩).elevation ≤ Real.pi / 2) ∧
    (∀ az el r a, AER.from_degrees_and_meters az el r = some a → a.range = r) ∧
    (∀ az el r a, AER.from_radians_and_meters az el r = some a → a.range = r) ∧
    (∀ r : ℝ, r < 0 →
      (AER.from_degrees_and_meters 0 0 r).isSome = true ∧
      (AER.try_from_degrees_and_meters 0 0 r).isSome = true ∧
      (AER.from_radians_and_meters 0 0 r).isSome = true ∧
      (AER.try_from_radians_and_meters 0 0 r).isSome = true) := by
  have hpi := Real.pi_pos
  refine ⟨?_, ?_, ?_, ?_, ?_⟩
  · rintro az el r a (h | h | h | h)
    · obtain ⟨b1, b2, b3, b4, -⟩ := deg_stored_bounds az el r a h
      exact ⟨b1, b2, b3, b4⟩
    · rw [try_deg_eq_deg] at h
      obtain ⟨b1, b2, b3, b4, -⟩ := deg_stored_bounds az el r a h
      exact ⟨b1, b2, b3, b4⟩
    · obtain ⟨b1, b2, b3, b4, -⟩ := rad_stored_bounds az el r a h
      exact ⟨b1, b2, b3, b4⟩
    · rw [try_rad_eq_rad] at h
      obtain ⟨b1, b2, b3, b4, -⟩ := rad_stored_bounds az el r a h
      exact ⟨b1, b2, b3, b4⟩
  · intro e n u
    obtain ⟨b1, b2, b3, b4, -⟩ := fromENU_invariant e n u
    exact ⟨b1, b2.le, b3, b4⟩
  · intro az el r a h
    exact (deg_some_inv az el r a h).2.2.1
  · intro az el r a h
    exact (rad_some_inv az el r a h).2.2.1
  · intro r hr
    have hdeg : AER.from_degrees_and_meters 0 0 r =
        some { azimuth := 0 * (Real.pi / 180), elevation := 0 * (Real.pi / 180),
               range := r } := by
      rw [AER.from_degrees_and_meters, if_pos (by norm_num)]
    have hrad : AER.from_radians_and_meters 0 0 r =
        some { azimuth := 0, elevation := 0, range := r } := by
      rw [AER.from_radians_and_meters,
        if_pos ⟨le_refl (0 : ℝ), by positivity, by rw [abs_zero]; positivity⟩]
    refine ⟨?_, ?_, ?_, ?_⟩
    · rw [hdeg]; rfl
    · rw [try_deg_eq_deg, hdeg]; rfl
    · rw [hrad]; rfl
    · rw [try_rad_eq_rad, hrad]; rfl

/-- Witness for C9 at the radian constructor input `(2*pi, 0, 5)`, the
ENU offset `(1, 2, 3)`, and the negative range -5. -/
theorem C9_witness :
    0 ≤ (AER.mk (2 * Real.pi) 0 5).azimuth ∧
    0 ≤ (AER.fromENU ⟨1, 2, 3⟩).azimuth ∧
    (AER.from_degrees_and_meters 0 0 (-5)).isSome = true := by
  refine ⟨?_, (C9_stored_bounds.2.1 1 2 3).1,
    ((C9_stored_bounds.2.2.2.2 (-5) (by norm_num)).1)⟩
  refine (C9_stored_bounds.1 (2 * Real.pi) 0 5 _ (Or.inr (Or.inr (Or.inl ?_)))).1
  rw [AER.from_radians_and_meters,
    if_pos ⟨by positivity, le_refl _, by rw [abs_zero]; positivity⟩]

/-! ### Round-trip lemmas -/

theorem fromENU_degenerate (u : ℝ) :
    AER.fromENU ⟨0, 0, u⟩ = { azimuth := 0, elevation := atan2 u 0, range := |u| } := by
  simp only [AER.fromENU, ENU.norm]
  norm_num [atan2_zero_zero, Real.sqrt_zero, Real.sqrt_sq_eq_abs]

theorem enu_roundtrip_exact (e n u : ℝ) :
    ENU.fromAER (AER.fromENU ⟨e, n, u⟩) = ⟨e, n, u⟩ := by
  by_cases h0 : e = 0 ∧ n = 0
  · obtain ⟨rfl, rfl⟩ := h0
    rw [fromENU_degenerate]
    rcases lt_trichotomy u 0 with hu | hu | hu
    · rw [atan2_neg_zero u hu]
      simp only [ENU.fromAER]
      simp [Real.sin_neg, Real.cos_neg, Real.sin_pi_div_two, Real.cos_pi_div_two,
        abs_of_neg hu]
    · subst hu
      simp only [ENU.fromAER]
      simp [atan2_zero_zero]
    · rw [atan2_pos_zero u hu]
      simp only [ENU.fromAER]
      simp [Real.sin_pi_div_two, Real.cos_pi_div_two, abs_of_pos hu]
  · have hen : (0 : ℝ) ≤ e ^ 2 + n ^ 2 := by positivity
    have hen_pos : 0 < e ^ 2 + n ^ 2 := sq_add_sq_pos h0
    have hh : 0 < Real.sqrt (e ^ 2 + n ^ 2) := Real.sqrt_pos.mpr hen_pos
    have hr : 0 < Real.sqrt (e ^ 2 + n ^ 2 + u ^ 2) :=
      Real.sqrt_pos.mpr (by nlinarith [sq_nonneg u])
    have hrange : (AER.fromENU ⟨e, n, u⟩).range =
        Real.sqrt (e ^ 2 + n ^ 2 + u ^ 2) := rfl
    have hsin_az : Real.sin ((AER.fromENU ⟨e, n, u⟩).azimuth) =
        e / Real.sqrt (e ^ 2 + n ^ 2) := by
      show Real.sin (if atan2 e n < 0 then atan2 e n + 2 * Real.pi else atan2 e n) = _
      have hbase : Real.sin (atan2 e n) = e / Real.sqrt (e ^ 2 + n ^ 2) := by
        rw [sin_atan2, add_comm (n ^ 2) (e ^ 2)]
      by_cases hc : atan2 e n < 0
      · rw [if_pos hc, Real.sin_add_two_pi, hbase]
      · rw [if_neg hc, hbase]
    have hcos_az : Real.cos ((AER.fromENU ⟨e, n, u⟩).azimuth) =
        n / Real.sqrt (e ^ 2 + n ^ 2) := by
      show Real.cos (if atan2 e n < 0 then atan2 e n + 2 * Real.pi else atan2 e n) = _
      have hbase : Real.cos (atan2 e n) = n / Real.sqrt (e ^ 2 + n ^ 2) := by
        rw [cos_atan2 e n (fun hc => h0 ⟨hc.2, hc.1⟩), add_comm (n ^ 2) (e ^ 2)]
      by_cases hc : atan2 e n < 0
      · rw [if_pos hc, Real.cos_add_two_pi, hbase]
      · rw [if_neg hc, hbase]
    have hsin_el : Real.sin ((AER.fromENU ⟨e, n, u⟩).elevation) =
        u / Real.sqrt (e ^ 2 + n ^ 2 + u ^ 2) := by
      show Real.sin (atan2 u (Real.sqrt (e ^ 2 + n ^ 2))) = _
      rw [sin_atan2, Real.sq_sqrt hen]
    have hcos_el : Real.cos ((AER.fromENU ⟨e, n, u⟩).elevation) =
        Real.sqrt (e ^ 2 + n ^ 2) / Real.sqrt (e ^ 2 + n ^ 2 + u ^ 2) := by
      show Real.cos (atan2 u (Real.sqrt (e ^ 2 + n ^ 2))) = _
      rw [cos_atan2 u _ (fun hc => hh.ne' hc.1), Real.sq_sqrt hen]
    ext
    · show Real.sin ((AER.fromENU ⟨e, n, u⟩).azimuth) *
        Real.cos ((AER.fromENU ⟨e, n, u⟩).elevation) *
        (AER.fromENU ⟨e, n, u⟩).range = e
      rw [hsin_az, hcos_el, hrange]
      field_simp
    · show Real.cos ((AER.fromENU ⟨e, n, u⟩).azimuth) *
        Real.cos ((AER.fromENU ⟨e, n, u⟩).elevation) *
        (AER.fromENU ⟨e, n, u⟩).range = n
      rw [hcos_az, hcos_el, hrange]
      field_simp
    · show Real.sin ((AER.fromENU ⟨e, n, u⟩).elevation) *
        (AER.fromENU ⟨e, n, u⟩).range = u
      rw [hsin_el, hrange]
      field_simp

/-- Claim C2: converting an ENU offset to AER and back to ENU reproduces
the original east, north and up components within an absolute tolerance
of 1e-4 each (over the real-number model the round trip is exact). -/
theorem C2_enu_aer_enu_roundtrip (e n u : ℝ) :
    |(ENU.fromAER (AER.fromENU ⟨e, n, u⟩)).east - e| ≤ 1e-4 ∧
    |(ENU.fromAER (AER.fromENU ⟨e, n, u⟩)).north - n| ≤ 1e-4 ∧
    |(ENU.fromAER (AER.fromENU ⟨e, n, u⟩)).up - u| ≤ 1e-4 := by
  rw [enu_roundtrip_exact]
  norm_num

theorem angle_eq_of_sin_cos_eq (a b : ℝ)
    (ha0 : 0 ≤ a) (ha1 : a < 2 * Real.pi)
    (hb0 : 0 ≤ b) (hb1 : b < 2 * Real.pi)
    (hsin : Real.sin a = Real.sin b) (hcos : Real.cos a = Real.cos b) : a = b := by
  have hpi := Real.pi_pos
  by_cases hA : a ≤ Real.pi <;> by_cases hB : b ≤ Real.pi
  · exact Real.injOn_cos ⟨ha0, hA⟩ ⟨hb0, hB⟩ hcos
  · exfalso
    push_neg at hB
    have h1 : 0 ≤ Real.sin a := Real.sin_nonneg_of_nonneg_of_le_pi ha0 hA
    have h2 : Real.sin b < 0 := by
      have hb' : Real.sin b = -Real.sin (b - Real.pi) := by
        rw [Real.sin_sub_pi, neg_neg]
      rw [hb']
      have : 0 < Real.sin (b - Real.pi) :=
        Real.sin_pos_of_pos_of_lt_pi (by linarith) (by linarith)
      linarith
    rw [hsin] at h1
    linarith
  · exfalso
    push_neg at hA
    have h1 : 0 ≤ Real.sin b := Real.sin_nonneg_of_nonneg_of_le_pi hb0 hB
    have h2 : Real.sin a < 0 := by
      have ha' : Real.sin a = -Real.sin (a - Real.pi) := by
        rw [Real.sin_sub_pi, neg_neg]
      rw [ha']
      have : 0 < Real.sin (a - Real.pi) :=
        Real.sin_pos_of_pos_of_lt_pi (by linarith) (by linarith)
      linarith
    rw [← hsin] at h1
    linarith
  · push_neg at hA hB
    have h3 : Real.cos (a - Real.pi) = Real.cos (b - Real.pi) := by
      rw [Real.cos_sub_pi, Real.cos_sub_pi, hcos]
    have h4 : a - Real.pi = b - Real.pi :=
      Real.injOn_cos ⟨by linarith, by linarith⟩ ⟨by linarith, by linarith⟩ h3
    linarith

theorem aer_roundtrip_exact (az el r : ℝ)
    (haz0 : 0 ≤ az) (haz1 : az < 2 * Real.pi)
    (hel0 : -(Real.pi / 2) < el) (hel1 : el < Real.pi / 2) (hr : 0 < r) :
    AER.fromENU (ENU.fromAER ⟨az, el, r⟩) = ⟨az, el, r⟩ := by
  have hpyaz := Real.sin_sq_add_cos_sq az
  have hpyel := Real.sin_sq_add_cos_sq el
  have hc : 0 < Real.cos el := Real.cos_pos_of_mem_Ioo ⟨hel0, hel1⟩
  have hcr : 0 < Real.cos el * r := mul_pos hc hr
  set e := Real.sin az * Real.cos el * r with he_def
  set n := Real.cos az * Real.cos el * r with hn_def
  set u := Real.sin el * r with hu_def
  have henu : ENU.fromAER ⟨az, el, r⟩ = ⟨e, n, u⟩ := rfl
  have hsum : e ^ 2 + n ^ 2 = (Real.cos el * r) ^ 2 := by
    rw [he_def, hn_def]
    linear_combination (Real.cos el * r) ^ 2 * hpyaz
  have hsum2 : e ^ 2 + n ^ 2 + u ^ 2 = r ^ 2 := by
    rw [he_def, hn_def, hu_def]
    linear_combination (Real.cos el * r) ^ 2 * hpyaz + r ^ 2 * hpyel
  have hhd : Real.sqrt (e ^ 2 + n ^ 2) = Real.cos el * r := by
    rw [hsum, Real.sqrt_sq hcr.le]
  have hnorm : Real.sqrt (e ^ 2 + n ^ 2 + u ^ 2) = r := by
    rw [hsum2, Real.sqrt_sq hr.le]
  have hrange : (AER.fromENU ⟨e, n, u⟩).range = r := by
    show Real.sqrt (e ^ 2 + n ^ 2 + u ^ 2) = r
    exact hnorm
  have hel' : (AER.fromENU ⟨e, n, u⟩).elevation = el := by
    show atan2 u (Real.sqrt (e ^ 2 + n ^ 2)) = el
    rw [hhd, atan2_of_pos u _ hcr, hu_def]
    rw [show Real.sin el * r / (Real.cos el * r) = Real.sin el / Real.cos el by
      rw [mul_comm (Real.sin el) r, mul_comm (Real.cos el) r,
        mul_div_mul_left _ _ hr.ne']]
    rw [← Real.tan_eq_sin_div_cos, Real.arctan_tan hel0 hel1]
  have haz' : (AER.fromENU ⟨e, n, u⟩).azimuth = az := by
    have hne : ¬(n = 0 ∧ e = 0) := by
      rintro ⟨hn0, he0⟩
      rw [hn_def] at hn0
      rw [he_def] at he0
      have h1 : Real.cos az = 0 := by
        rcases mul_eq_zero.mp hn0 with h | h
        · rcases mul_eq_zero.mp h with h' | h'
          · exact h'
          · exact absurd h' hc.ne'
        · exact absurd h hr.ne'
      have h2 : Real.sin az = 0 := by
        rcases mul_eq_zero.mp he0 with h | h
        · rcases mul_eq_zero.mp h with h' | h'
          · exact h'
          · exact absurd h' hc.ne'
        · exact absurd h hr.ne'
      rw [h1, h2] at hpyaz
      norm_num at hpyaz
    have hb0 : 0 ≤ (AER.fromENU ⟨e, n, u⟩).azimuth := (normalized_atan2_mem e n).1
    have hb1 : (AER.fromENU ⟨e, n, u⟩).azimuth < 2 * Real.pi :=
      (normalized_atan2_mem e n).2
    have hsin' : Real.sin ((AER.fromENU ⟨e, n, u⟩).azimuth) = Real.sin az := by
      show Real.sin (if atan2 e n < 0 then atan2 e n + 2 * Real.pi else atan2 e n) =
        Real.sin az
      have hbase : Real.sin (atan2 e n) = Real.sin az := by
        rw [sin_atan2, add_comm (n ^ 2) (e ^ 2), hhd, he_def]
        rw [mul_assoc, mul_div_assoc, div_self hcr.ne', mul_one]
      by_cases hcnd : atan2 e n < 0
      · rw [if_pos hcnd, Real.sin_add_two_pi, hbase]
      · rw [if_neg hcnd, hbase]
    have hcos' : Real.cos ((AER.fromENU ⟨e, n, u⟩).azimuth) = Real.cos az := by
      show Real.cos (if atan2 e n < 0 then atan2 e n + 2 * Real.pi else atan2 e n) =
        Real.cos az
      have hbase : Real.cos (atan2 e n) = Real.cos az := by
        rw [cos_atan2 e n hne, add_comm (n ^ 2) (e ^ 2), hhd, hn_def]
        rw [mul_assoc, mul_div_assoc, div_self hcr.ne', mul_one]
      by_cases hcnd : atan2 e n < 0
      · rw [if_pos hcnd, Real.cos_add_two_pi, hbase]
      · rw [if_neg hcnd, hbase]
    exact angle_eq_of_sin_cos_eq _ az hb0 hb1 haz0 haz1 hsin' hcos'
  rw [henu]
  rcases hx : AER.fromENU ⟨e, n, u⟩ with ⟨paz, pel, pr⟩
  rw [hx] at haz' hel' hrange
  simp only at haz' hel' hrange
  rw [haz', hel', hrange]

/-- Claim C3 counterexample: the AER offset (azimuth 1, elevation 0,
range 0) is valid under the claim (azimuth in `[0, 2*pi)`, elevation in
`[-pi/2, pi/2]`, range nonnegative), yet its ENU image is the zero
vector: east = sin 1 * cos 0 * 0 = 0 and north = cos 1 * cos 0 * 0 = 0
(in the program both products are +0.0 and atan2(+0.0, +0.0) = +0.0, so
the floating-point code degenerates the same way), hence the round trip
returns azimuth 0, which differs from 1 by far more than 1e-4. -/
theorem C3_counterexample :
    ((0 : ℝ) ≤ 1 ∧ (1 : ℝ) < 2 * Real.pi ∧
      -(Real.pi / 2) ≤ (0 : ℝ) ∧ (0 : ℝ) ≤ Real.pi / 2 ∧ (0 : ℝ) ≤ 0) ∧
    ENU.fromAER { azimuth := 1, elevation := 0, range := 0 } = ⟨0, 0, 0⟩ ∧
    (AER.fromENU (ENU.fromAER
      { azimuth := 1, elevation := 0, range := 0 })).azimuth = 0 ∧
    ¬|(AER.fromENU (ENU.fromAER
      { azimuth := 1, elevation := 0, range := 0 })).azimuth - 1| ≤ 1e-4 := by
  have hpi := Real.pi_pos
  have hgt : (3.14 : ℝ) < Real.pi := Real.pi_gt_d2
  have h1 : ENU.fromAER { azimuth := 1, elevation := 0, range := 0 } =
      ⟨0, 0, 0⟩ := by
    simp only [ENU.fromAER]
    norm_num
  have h2 : (AER.fromENU (ENU.fromAER
      { azimuth := 1, elevation := 0, range := 0 })).azimuth = 0 := by
    rw [h1, fromENU_degenerate 0]
  refine ⟨⟨by norm_num, by linarith, by linarith, by positivity, le_refl 0⟩,
    h1, h2, ?_⟩
  rw [h2]
  norm_num

/-- Claim C3 as amended: for azimuth in `[0, 2*pi)`, elevation in
`[-pi/2, pi/2]` and nonnegative range -- the claim's validity domain --
excluding exactly the degenerate offsets whose ENU image has zero
horizontal projection (`cos el * r = 0`, the failure mechanism the
counterexample exhibits; over the reals this excludes range 0 and
elevation exactly `±pi/2`, while in the program's floating-point
arithmetic `cos` never evaluates to exactly zero so only range 0 is
excluded), the AER -> ENU -> AER round trip reproduces azimuth,
elevation and range within an absolute tolerance of 1e-4 each (over the
real-number model it is exact). -/
theorem C3_aer_enu_aer_roundtrip (az el r : ℝ)
    (haz0 : 0 ≤ az) (haz1 : az < 2 * Real.pi)
    (hel0 : -(Real.pi / 2) ≤ el) (hel1 : el ≤ Real.pi / 2)
    (hr : 0 ≤ r) (hcr : Real.cos el * r ≠ 0) :
    |(AER.fromENU (ENU.fromAER ⟨az, el, r⟩)).azimuth - az| ≤ 1e-4 ∧
    |(AER.fromENU (ENU.fromAER ⟨az, el, r⟩)).elevation - el| ≤ 1e-4 ∧
    |(AER.fromENU (ENU.fromAER ⟨az, el, r⟩)).range - r| ≤ 1e-4 := by
  have hrne : r ≠ 0 := fun h => hcr (by rw [h, mul_zero])
  have hrpos : 0 < r := lt_of_le_of_ne hr (Ne.symm hrne)
  have hcne : Real.cos el ≠ 0 := fun h => hcr (by rw [h, zero_mul])
  have hel0s : -(Real.pi / 2) < el := by
    rcases lt_or_eq_of_le hel0 with h | h
    · exact h
    · exact absurd (by rw [← h, Real.cos_neg, Real.cos_pi_div_two]) hcne
  have hel1s : el < Real.pi / 2 := by
    rcases lt_or_eq_of_le hel1 with h | h
    · exact h
    · exact absurd (by rw [h, Real.cos_pi_div_two]) hcne
  rw [aer_roundtrip_exact az el r haz0 haz1 hel0s hel1s hrpos]
  norm_num

/-- Witness for the amended C3 at azimuth 0, elevation 0, range 1. -/
theorem C3_witness :
    |(AER.fromENU (ENU.fromAER ⟨0, 0, 1⟩)).azimuth - 0| ≤ 1e-4 ∧
    |(AER.fromENU (ENU.fromAER ⟨0, 0, 1⟩)).elevation - 0| ≤ 1e-4 ∧
    |(AER.fromENU (ENU.fromAER ⟨0, 0, 1⟩)).range - 1| ≤ 1e-4 := by
  have hpi := Real.pi_pos
  exact C3_aer_enu_aer_roundtrip 0 0 1 (le_refl 0) (by linarith)
    (by linarith) (by linarith) (by norm_num)
    (by rw [Real.cos_zero]; norm_num)

end NavTypes
